import Mathlib

/-!
# yeti: the logger core of `inc/yeti/yeti.h`

A shallow embedding of `class Logger` (queue, worker loop `Print`, `AddMsg`,
`Shutdown`, level/colour accessors) together with an interleaving model of the
worker thread and the application threads, followed by the properties of the
specification that were checked against it.

Conventions of the embedding.

* A queue element (`std::function<void()>`) is a straight-line program over the
  effects the specification speaks of: writing a value to the output, calling
  `Logger::AddMsg`, throwing, returning.
* `queue_mutex_` is represented by its owner: the worker between line 94 and
  the end of the do-body, or a thread inside `AddMsg` together with its next
  statement.  A thread that locks the mutex while another thread holds it does
  not proceed.  Locking a `std::mutex` that the calling thread already owns is
  undefined behaviour in C++; the embedding takes the usual outcome, the thread
  does not proceed either.
* The worker thread is represented by a control point inside `Print`; one call
  of `Logger.Print` performs the next statement of the worker.
* Fields `sink`, `executed` and `began` are observations added to the state;
  the code never reads them.
-/

namespace yeti

/-- Severity enumeration `enum LogLevel` (yeti.h:44-51). -/
inductive LogLevel
  | LOG_LEVEL_CRITICAL
  | LOG_LEVEL_ERROR
  | LOG_LEVEL_WARNING
  | LOG_LEVEL_INFO
  | LOG_LEVEL_DEBUG
  | LOG_LEVEL_TRACE
  deriving DecidableEq

/-- Integer value of an enumerator (implicit conversion of the unscoped enum to `int`). -/
def LogLevel.toInt : LogLevel → Int
  | .LOG_LEVEL_CRITICAL => 0
  | .LOG_LEVEL_ERROR => 1
  | .LOG_LEVEL_WARNING => 2
  | .LOG_LEVEL_INFO => 3
  | .LOG_LEVEL_DEBUG => 4
  | .LOG_LEVEL_TRACE => 5

/-- Threads of the process: the worker started by the constructor and application thread `i`. -/
inductive Tid
  | worker
  | producer (i : Nat)
  deriving DecidableEq

/-- Next statement of a thread inside `Logger::AddMsg` (yeti.h:85-89), once its `queue_lock`
has been constructed. -/
inductive APc
  /-- Line 87: `queue_.push(print_func)`. -/
  | push
  /-- Line 88: `cv_.notify_one()`. -/
  | notify
  /-- Line 89: `queue_lock` is destroyed. -/
  | unlock
  deriving DecidableEq

/-- Owner of `queue_mutex_`. -/
inductive Holder
  /-- The `queue_lock` of the worker in `Print` (yeti.h:94). -/
  | print
  /-- The `queue_lock` of thread `t` in `AddMsg` (yeti.h:86), with the next statement of `t`. -/
  | addMsg (t : Tid) (next : APc)
  deriving DecidableEq

/-- Queue element (`std::function<void()>`): a finite program that writes values, calls
`Logger::AddMsg`, throws or returns. -/
inductive Entry
  | ret
  | write (v : Nat) (k : Entry)
  | addMsg (f : Entry) (k : Entry)
  | raise (c : Nat)
  deriving DecidableEq

/-- Control point of the worker thread inside `Logger::Print` (yeti.h:91-102). -/
inductive Pc
  /-- Line 94: about to construct `queue_lock`. -/
  | lock
  /-- Line 95: in `wait_for` with the mutex held, about to test the predicate. -/
  | wait
  /-- Line 95: in `wait_for` with the mutex released, waiting for a notification or the timeout. -/
  | blocked
  /-- Line 97: condition of the inner loop. -/
  | test
  /-- Line 98: `queue_.front()()`. -/
  | call
  /-- Line 99: `queue_.pop()`. -/
  | pop
  /-- Line 101: `queue_lock` destroyed, about to read `stop_loop_`. -/
  | check
  /-- Method `Print` has returned. -/
  | done
  /-- An exception with code `c` left `Print`. -/
  | threw (c : Nat)
  /-- The entry being run waits for `queue_mutex_`, which its own thread holds. -/
  | stuck
  deriving DecidableEq

/-- State of `class Logger` (yeti.h:120-126), of the statics of `instance()` (yeti.h:67-68),
of the worker thread, and the observations. -/
structure Logger where
  /-- Member `queue_`, head first; every element is paired with the thread that pushed it. -/
  queue_ : List (Tid × Entry)
  stop_loop_ : Bool
  is_colored_ : Bool
  level_ : Int
  /-- Owner of `queue_mutex_`. -/
  queue_mutex_ : Option Holder
  /-- Value of `thread_.joinable()`. -/
  thread_joinable : Bool
  /-- Where the worker thread stands in `Print`. -/
  pc : Pc
  is_atexit_registered : Bool
  /-- Number of `std::atexit(_Shutdown)` registrations made. -/
  atexit_hooks : Nat
  /-- Values written by the entries run so far, oldest first. -/
  sink : List Nat
  /-- Entries whose call has returned, oldest first. -/
  executed : List (Tid × Entry)
  /-- Value of `stop_loop_` when the timed wait of the latest pass returned. -/
  began : Option Bool
  deriving DecidableEq

/-- Constructor `Logger::Logger()` (yeti.h:113-118); the worker starts at the top of `Print`. -/
def Logger.ctor : Logger :=
  { queue_ := []
    stop_loop_ := false
    is_colored_ := true
    level_ := LogLevel.LOG_LEVEL_INFO.toInt
    queue_mutex_ := none
    thread_joinable := true
    pc := Pc.lock
    is_atexit_registered := false
    atexit_hooks := 0
    sink := []
    executed := []
    began := none }

/-- Accessor `Logger::instance()` (yeti.h:63-77) on the constructed logger: registers the exit
hook unless it is registered. -/
def Logger.instance_ (s : Logger) : Logger :=
  if !s.is_atexit_registered then
    if !s.is_atexit_registered then
      { s with atexit_hooks := s.atexit_hooks + 1, is_atexit_registered := true }
    else s
  else s

/-- Method `SetLevel` (yeti.h:79). -/
def Logger.SetLevel (level : LogLevel) (s : Logger) : Logger :=
  { s.instance_ with level_ := level.toInt }

/-- Method `GetLevel` (yeti.h:80): the value returned and the state left by `instance()`. -/
def Logger.GetLevel (s : Logger) : Int × Logger :=
  (s.instance_.level_, s.instance_)

/-- Method `GetColored` (yeti.h:82). -/
def Logger.GetColored (s : Logger) : Bool × Logger :=
  (s.instance_.is_colored_, s.instance_)

/-- Method `SetColored` (yeti.h:83). -/
def Logger.SetColored (is_colored : Bool) (s : Logger) : Logger :=
  { s with is_colored_ := is_colored }

/-- Line 86 of `AddMsg`: thread `t` constructs its `queue_lock`; `none` while the mutex is
held. -/
def Logger.AddMsg_lock (t : Tid) (s : Logger) : Option Logger :=
  match s.queue_mutex_ with
  | none => some { s with queue_mutex_ := some (Holder.addMsg t APc.push) }
  | some _ => none

/-- Line 87 of `AddMsg`: thread `t`, holding the mutex, pushes `print_func`. -/
def Logger.AddMsg_push (t : Tid) (print_func : Entry) (s : Logger) : Option Logger :=
  if s.queue_mutex_ = some (Holder.addMsg t APc.push) then
    some { s with queue_ := s.queue_ ++ [(t, print_func)]
                  queue_mutex_ := some (Holder.addMsg t APc.notify) }
  else none

/-- Line 88 of `AddMsg`: thread `t`, still holding the mutex, calls `cv_.notify_one()`.  The
wake-up of the worker is an action of the worker. -/
def Logger.AddMsg_notify (t : Tid) (s : Logger) : Option Logger :=
  if s.queue_mutex_ = some (Holder.addMsg t APc.notify) then
    some { s with queue_mutex_ := some (Holder.addMsg t APc.unlock) }
  else none

/-- Line 89 of `AddMsg`: the `queue_lock` of thread `t` is destroyed. -/
def Logger.AddMsg_unlock (t : Tid) (s : Logger) : Option Logger :=
  if s.queue_mutex_ = some (Holder.addMsg t APc.unlock) then
    some { s with queue_mutex_ := none }
  else none

/-- Method `AddMsg` (yeti.h:85-89) called by thread `t` and run to its return: `none` when the
caller cannot take `queue_mutex_`. -/
def Logger.AddMsg (t : Tid) (print_func : Entry) (s : Logger) : Option Logger :=
  (((s.AddMsg_lock t).bind (Logger.AddMsg_push t print_func)).bind
    (Logger.AddMsg_notify t)).bind (Logger.AddMsg_unlock t)

/-- Thread `t` calls `AddMsg` for each entry of a list, in order. -/
def Logger.AddMsgs (t : Tid) : List Entry → Logger → Option Logger
  | [], s => some s
  | f :: fs, s => (s.AddMsg t f).bind (Logger.AddMsgs t fs)

/-- How the call of an entry ends. -/
inductive Outcome
  | returned (s : Logger)
  | threw (c : Nat) (s : Logger)
  | blocked (s : Logger)
  deriving DecidableEq

/-- State in which the call of an entry ended. -/
def Outcome.state : Outcome → Logger
  | .returned s => s
  | .threw _ s => s
  | .blocked s => s

/-- Thread `t` runs an entry. -/
def Entry.run (t : Tid) : Entry → Logger → Outcome
  | .ret, s => .returned s
  | .write v k, s => k.run t { s with sink := s.sink ++ [v] }
  | .addMsg f k, s =>
    match s.AddMsg t f with
    | some s1 => k.run t s1
    | none => .blocked s
  | .raise c, s => .threw c s

/-- The entry runs to its return without calling `AddMsg` and without throwing. -/
def Entry.returns : Entry → Bool
  | .ret => true
  | .write _ k => k.returns
  | .addMsg _ _ => false
  | .raise _ => false

/-- The entry throws `c` before any call of `AddMsg`. -/
def Entry.raises : Entry → Option Nat
  | .ret => none
  | .write _ k => k.raises
  | .addMsg _ _ => none
  | .raise c => some c

/-- Values the entry writes before its first `AddMsg`, its throw or its return. -/
def Entry.writes : Entry → List Nat
  | .ret => []
  | .write v k => v :: k.writes
  | .addMsg _ _ => []
  | .raise _ => []

/-- One statement of the worker in `Logger::Print` (yeti.h:91-102).  `timeout` tells whether a
wake-up from the timed wait is its expiry; `none` when the worker cannot proceed. -/
def Logger.Print (timeout : Bool) (s : Logger) : Option Logger :=
  match s.pc with
  | .lock =>
    match s.queue_mutex_ with
    | none => some { s with queue_mutex_ := some Holder.print, pc := Pc.wait }
    | some _ => none
  | .wait =>
    match s.queue_ with
    | [] => some { s with queue_mutex_ := none, pc := Pc.blocked }
    | _ :: _ => some { s with pc := Pc.test, began := some s.stop_loop_ }
  | .blocked =>
    match s.queue_mutex_ with
    | none =>
      if timeout then
        some { s with queue_mutex_ := some Holder.print, pc := Pc.test, began := some s.stop_loop_ }
      else
        some { s with queue_mutex_ := some Holder.print, pc := Pc.wait }
    | some _ => none
  | .test =>
    match s.queue_ with
    | [] => some { s with queue_mutex_ := none, pc := Pc.check }
    | _ :: _ => some { s with pc := Pc.call }
  | .call =>
    match s.queue_ with
    | [] => none
    | x :: _ =>
      match x.2.run Tid.worker s with
      | .returned s1 => some { s1 with pc := Pc.pop, executed := s1.executed ++ [x] }
      | .threw c s1 => some { s1 with pc := Pc.threw c }
      | .blocked s1 => some { s1 with pc := Pc.stuck }
  | .pop => some { s with queue_ := s.queue_.tail, pc := Pc.test }
  | .check =>
    if !s.stop_loop_ then some { s with pc := Pc.lock } else some { s with pc := Pc.done }
  | .done => none
  | .threw _ => none
  | .stuck => none

/-- The worker alone performs up to `n` statements; a timed wait ends by its expiry. -/
def Logger.runWorker : Nat → Logger → Logger
  | 0, s => s
  | n + 1, s =>
    match s.Print true with
    | some s1 => Logger.runWorker n s1
    | none => s

/-- The inner loop of `Print` (yeti.h:97-100): the worker performs statements while it stands
in the loop, at most `n` of them. -/
def Logger.drain : Nat → Logger → Logger
  | 0, s => s
  | n + 1, s =>
    match s.pc with
    | .test | .call | .pop =>
      match s.Print false with
      | some s1 => Logger.drain n s1
      | none => s
    | _ => s

/-- The worker holds `queue_mutex_` and stands at the head of the inner loop (yeti.h:97). -/
def Logger.atLoop (s : Logger) : Logger :=
  { s with queue_mutex_ := some Holder.print, pc := Pc.test }

/-- Call `thread_.join()` (yeti.h:108): returns once `Print` has returned. -/
def Logger.join (fuel : Nat) (s : Logger) : Option Logger :=
  match (s.runWorker fuel).pc with
  | .done => some { s.runWorker fuel with thread_joinable := false }
  | _ => none

/-- Method `Shutdown` (yeti.h:104-110) with the worker running alone during the join; `none`
when the join does not return within `fuel` statements of the worker. -/
def Logger.Shutdown (fuel : Nat) (s : Logger) : Option Logger :=
  let s1 := { s with stop_loop_ := true }
  if s1.thread_joinable then s1.join fuel else some s1

/-- Atomic actions of the threads. -/
inductive Event
  /-- The worker performs its next statement; a wake-up from the timed wait is not the expiry. -/
  | worker
  /-- The timed wait of the worker expires. -/
  | timeout
  /-- Application thread `i` enters `AddMsg` and takes the mutex (line 86). -/
  | lockMsg (i : Nat)
  /-- Application thread `i` pushes `f` (line 87). -/
  | pushMsg (i : Nat) (f : Entry)
  /-- Application thread `i` notifies the condition variable (line 88). -/
  | notifyMsg (i : Nat)
  /-- Application thread `i` releases the mutex and returns from `AddMsg` (line 89). -/
  | unlockMsg (i : Nat)
  /-- Some thread calls `SetLevel`. -/
  | setLevel (level : LogLevel)
  /-- Some thread calls `SetColored`. -/
  | setColored (b : Bool)
  /-- Line 106 of `Shutdown`: the store to `stop_loop_`. -/
  | stop
  /-- Line 108 of `Shutdown`: `thread_.join()` returns. -/
  | join
  deriving DecidableEq

/-- Effect of one action; `none` when the action is not enabled. -/
def step (ev : Event) (s : Logger) : Option Logger :=
  match ev with
  | .worker => s.Print false
  | .timeout =>
    match s.pc with
    | .blocked => s.Print true
    | _ => none
  | .lockMsg i => s.AddMsg_lock (Tid.producer i)
  | .pushMsg i f => s.AddMsg_push (Tid.producer i) f
  | .notifyMsg i => s.AddMsg_notify (Tid.producer i)
  | .unlockMsg i => s.AddMsg_unlock (Tid.producer i)
  | .setLevel level => some (s.SetLevel level)
  | .setColored b => some (s.SetColored b)
  | .stop => some { s with stop_loop_ := true }
  | .join =>
    match s.thread_joinable, s.pc with
    | true, .done => some { s with thread_joinable := false }
    | _, _ => none

/-- Effect of a schedule, first action first. -/
def run : List Event → Logger → Option Logger
  | [], s => some s
  | ev :: tr, s => (step ev s).bind (run tr)

/-- Entries pushed by the actions of a schedule, in order, with the pushing thread. -/
def pushes : List Event → List (Tid × Entry)
  | [] => []
  | .pushMsg i f :: tr => (Tid.producer i, f) :: pushes tr
  | _ :: tr => pushes tr

/-- Elements of a tagged list that thread `t` pushed. -/
def byThread (t : Tid) (l : List (Tid × Entry)) : List (Tid × Entry) :=
  l.filter (fun x => decide (x.1 = t))

/-- Entry that writes the value `v` and returns. -/
def put (v : Nat) : Entry := Entry.write v Entry.ret

/-- Actions of one call `AddMsg(f)` by application thread `i`. -/
def callAddMsg (i : Nat) (f : Entry) : List Event :=
  [Event.lockMsg i, Event.pushMsg i f, Event.notifyMsg i, Event.unlockMsg i]

/-- Schedule: the worker finds the queue empty, the timed wait expires, the empty pass ends;
then thread 0 pushes `put 1` and calls `Shutdown`; the worker reads the flag. -/
def lateEnqueue : List Event :=
  [Event.worker, Event.worker, Event.timeout, Event.worker] ++ callAddMsg 0 (put 1) ++
    [Event.stop, Event.worker, Event.join]

/-- Schedule: thread 0 pushes `put 1`; the worker makes a pass that runs it; thread 0 pushes
`put 2` and calls `Shutdown`; the worker reads the flag; the join returns. -/
def stopAfterPass : List Event :=
  callAddMsg 0 (put 1) ++
    [Event.worker, Event.worker, Event.worker, Event.worker, Event.worker, Event.worker] ++
    callAddMsg 0 (put 2) ++ [Event.stop, Event.worker, Event.join]

/-- Schedule: thread 0 pushes `put 1`, the worker locks, leaves the wait and enters the call. -/
def workerInCall : List Event :=
  callAddMsg 0 (put 1) ++ [Event.worker, Event.worker, Event.worker]

/-- Control points at which the worker owns `queue_mutex_`: from the lock of line 94 to the
end of the do-body, an entry that did not return included. -/
def holds : Pc → Bool
  | .lock => false
  | .blocked => false
  | .check => false
  | .done => false
  | _ => true

/-- Invariant of the interleaving model; `log` is the sequence of pushes made so far. -/
structure Inv (s : Logger) (log : List (Tid × Entry)) : Prop where
  mutex : s.queue_mutex_ = some Holder.print ↔ holds s.pc = true
  producers : ∀ t a, s.queue_mutex_ = some (Holder.addMsg t a) → ∃ i, t = Tid.producer i
  fifo : s.pc ≠ Pc.pop → s.executed ++ s.queue_ = log
  fifoPop : s.pc = Pc.pop →
    ∃ x r pre, s.queue_ = x :: r ∧ s.executed = pre ++ [x] ∧ log = pre ++ x :: r

/-- Entry that calls `AddMsg(put 7)` and returns. -/
def relog : Entry := Entry.addMsg (put 7) Entry.ret

/-- Schedule: thread 0 pushes `relog`; the worker locks and leaves the timed wait, so that it
stands at the head of the inner loop. -/
def reentrant : List Event :=
  callAddMsg 0 relog ++ [Event.worker, Event.worker]

/-- Schedule: the worker waits on the empty queue; threads 0 and 1 push three entries; the
worker wakes up and makes a full pass. -/
def twoProducers : List Event :=
  [Event.worker, Event.worker] ++ callAddMsg 0 (put 1) ++ callAddMsg 1 (put 2) ++
    callAddMsg 0 (put 3) ++
    [Event.worker, Event.worker,
     Event.worker, Event.worker, Event.worker,
     Event.worker, Event.worker, Event.worker,
     Event.worker, Event.worker, Event.worker,
     Event.worker]

/-- State reached by `twoProducers`. -/
def twoProducersEnd : Logger :=
  { Logger.ctor with
    pc := Pc.check
    began := some false
    sink := [1, 2, 3]
    executed := [(Tid.producer 0, put 1), (Tid.producer 1, put 2), (Tid.producer 0, put 3)] }

/-- State reached by `workerInCall`. -/
def workerInCallEnd : Logger :=
  { Logger.ctor with
    queue_ := [(Tid.producer 0, put 1)]
    queue_mutex_ := some Holder.print
    pc := Pc.call
    began := some false }

/-- Schedule: threads 0 and 1 push two entries, the worker locks and leaves the timed wait. -/
def passStart : List Event :=
  callAddMsg 0 (put 1) ++ callAddMsg 1 (put 2) ++ [Event.worker, Event.worker]

/-- State reached by `passStart`. -/
def passStartEnd : Logger :=
  { Logger.ctor with
    queue_ := [(Tid.producer 0, put 1), (Tid.producer 1, put 2)]
    queue_mutex_ := some Holder.print
    pc := Pc.test
    began := some false }

/-- Logger with two pushed entries while the worker waits for the timeout. -/
def twoPending : Logger :=
  { Logger.ctor with
    queue_ := [(Tid.producer 0, put 1), (Tid.producer 0, put 2)]
    pc := Pc.blocked }

/-- State in which `Shutdown` leaves `twoPending`. -/
def twoPendingEnd : Logger :=
  { Logger.ctor with
    stop_loop_ := true
    thread_joinable := false
    pc := Pc.done
    began := some true
    sink := [1, 2]
    executed := [(Tid.producer 0, put 1), (Tid.producer 0, put 2)] }

/-- Worker at the head of the inner loop; the second entry writes 2 and throws 9. -/
def failingQueue : Logger :=
  Logger.atLoop
    { Logger.ctor with
      queue_ := [(Tid.producer 0, put 1), (Tid.producer 0, Entry.write 2 (Entry.raise 9)),
                 (Tid.producer 1, put 3)] }

/-- State reached by `reentrant`. -/
def reentrantEnd : Logger :=
  { Logger.ctor with
    queue_ := [(Tid.producer 0, relog)]
    queue_mutex_ := some Holder.print
    pc := Pc.test
    began := some false }

/-! ## Running an entry -/

theorem AddMsg_free (t : Tid) (f : Entry) (s : Logger) (h : s.queue_mutex_ = none) :
    s.AddMsg t f = some { s with queue_ := s.queue_ ++ [(t, f)] } := by
  cases s
  simp_all [Logger.AddMsg, Logger.AddMsg_lock, Logger.AddMsg_push, Logger.AddMsg_notify,
    Logger.AddMsg_unlock]

theorem AddMsg_held (t : Tid) (w : Holder) (f : Entry) (s : Logger)
    (h : s.queue_mutex_ = some w) : s.AddMsg t f = none := by
  simp [Logger.AddMsg, Logger.AddMsg_lock, h]

theorem AddMsgs_free (t : Tid) (fs : List Entry) :
    ∀ s : Logger, s.queue_mutex_ = none →
      Logger.AddMsgs t fs s = some { s with queue_ := s.queue_ ++ fs.map (fun f => (t, f)) } := by
  induction fs with
  | nil => intro s _; simp [Logger.AddMsgs]
  | cons f fs ih =>
    intro s h
    have h1 : ({ s with queue_ := s.queue_ ++ [(t, f)] } : Logger).queue_mutex_ = none := h
    simp [Logger.AddMsgs, AddMsg_free t f s h, ih _ h1]

theorem run_held (t : Tid) (f : Entry) :
    ∀ (s : Logger) (w : Holder), s.queue_mutex_ = some w →
      f.run t s =
        if f.returns then Outcome.returned { s with sink := s.sink ++ f.writes }
        else match f.raises with
          | some c => Outcome.threw c { s with sink := s.sink ++ f.writes }
          | none => Outcome.blocked { s with sink := s.sink ++ f.writes } := by
  induction f with
  | ret => intro s w _; simp [Entry.run, Entry.returns, Entry.writes]
  | write v k ih =>
    intro s w h
    have := ih { s with sink := s.sink ++ [v] } w h
    simp [Entry.run, Entry.returns, Entry.raises, Entry.writes, this]
  | addMsg f k _ _ =>
    intro s w h
    simp [Entry.run, Entry.returns, Entry.raises, Entry.writes, AddMsg_held t w f s h]
  | raise c => intro s w _; simp [Entry.run, Entry.returns, Entry.raises, Entry.writes]

theorem run_returns (t : Tid) (f : Entry) (s : Logger) (w : Holder) (h : s.queue_mutex_ = some w)
    (hf : f.returns = true) :
    f.run t s = Outcome.returned { s with sink := s.sink ++ f.writes } := by
  rw [run_held t f s w h]; simp [hf]

theorem returns_not_raises (f : Entry) (c : Nat) (h : f.raises = some c) : f.returns = false := by
  induction f with
  | ret => simp [Entry.raises] at h
  | write v k ih => simpa [Entry.returns] using ih (by simpa [Entry.raises] using h)
  | addMsg f k _ _ => simp [Entry.returns]
  | raise c => simp [Entry.returns]

theorem run_raises (t : Tid) (f : Entry) (s : Logger) (w : Holder) (h : s.queue_mutex_ = some w)
    (c : Nat) (hf : f.raises = some c) :
    f.run t s = Outcome.threw c { s with sink := s.sink ++ f.writes } := by
  rw [run_held t f s w h]; simp [hf, returns_not_raises f c hf]


/-! ## The inner loop -/

theorem drain_left (n : Nat) (s : Logger) (h1 : s.pc ≠ Pc.test) (h2 : s.pc ≠ Pc.call)
    (h3 : s.pc ≠ Pc.pop) : s.drain n = s := by
  cases n with
  | zero => rfl
  | succ n =>
    cases hpc : s.pc <;> simp_all [Logger.drain]

theorem drain_test_nil (n : Nat) (s : Logger) (hpc : s.pc = Pc.test) (hq : s.queue_ = []) :
    s.drain (n + 1) = { s with queue_mutex_ := none, pc := Pc.check } := by
  have h : s.Print false = some { s with queue_mutex_ := none, pc := Pc.check } := by
    simp [Logger.Print, hpc, hq]
  simp only [Logger.drain, hpc, h]
  exact drain_left n _ (by simp) (by simp) (by simp)

theorem drain_test_cons (n : Nat) (s : Logger) (x : Tid × Entry) (r : List (Tid × Entry))
    (hpc : s.pc = Pc.test) (hq : s.queue_ = x :: r) :
    s.drain (n + 1) = ({ s with pc := Pc.call } : Logger).drain n := by
  have h : s.Print false = some { s with pc := Pc.call } := by
    simp [Logger.Print, hpc, hq]
  simp only [Logger.drain, hpc, h]

theorem drain_call_returns (n : Nat) (s : Logger) (x : Tid × Entry) (r : List (Tid × Entry))
    (w : Holder) (hpc : s.pc = Pc.call) (hq : s.queue_ = x :: r) (hm : s.queue_mutex_ = some w)
    (hx : x.2.returns = true) :
    s.drain (n + 1) =
      ({ s with sink := s.sink ++ x.2.writes, pc := Pc.pop,
                executed := s.executed ++ [x] } : Logger).drain n := by
  have h : s.Print false =
      some { s with sink := s.sink ++ x.2.writes, pc := Pc.pop,
                    executed := s.executed ++ [x] } := by
    simp [Logger.Print, hpc, hq, run_returns Tid.worker x.2 s w hm hx]
  simp only [Logger.drain, hpc, h]

theorem drain_call_raises (n : Nat) (s : Logger) (x : Tid × Entry) (r : List (Tid × Entry))
    (w : Holder) (c : Nat) (hpc : s.pc = Pc.call) (hq : s.queue_ = x :: r)
    (hm : s.queue_mutex_ = some w) (hx : x.2.raises = some c) :
    s.drain (n + 1) = { s with sink := s.sink ++ x.2.writes, pc := Pc.threw c } := by
  have h : s.Print false = some { s with sink := s.sink ++ x.2.writes, pc := Pc.threw c } := by
    simp [Logger.Print, hpc, hq, run_raises Tid.worker x.2 s w hm c hx]
  simp only [Logger.drain, hpc, h]
  exact drain_left n _ (by simp) (by simp) (by simp)

theorem drain_pop (n : Nat) (s : Logger) (hpc : s.pc = Pc.pop) :
    s.drain (n + 1) = ({ s with queue_ := s.queue_.tail, pc := Pc.test } : Logger).drain n := by
  have h : s.Print false = some { s with queue_ := s.queue_.tail, pc := Pc.test } := by
    simp [Logger.Print, hpc]
  simp only [Logger.drain, hpc, h]

/-- One entry that returns costs three statements of the loop. -/
theorem drain_one (n : Nat) (s : Logger) (x : Tid × Entry) (r : List (Tid × Entry))
    (w : Holder) (hpc : s.pc = Pc.test) (hq : s.queue_ = x :: r) (hm : s.queue_mutex_ = some w)
    (hx : x.2.returns = true) :
    s.drain (n + 3) =
      ({ s with queue_ := r, sink := s.sink ++ x.2.writes,
                executed := s.executed ++ [x] } : Logger).drain n := by
  refine (drain_test_cons (n + 2) s x r hpc hq).trans ?_
  refine (drain_call_returns (n + 1) { s with pc := Pc.call } x r w rfl hq hm hx).trans ?_
  refine (drain_pop n { s with sink := s.sink ++ x.2.writes, pc := Pc.pop,
                               executed := s.executed ++ [x] } rfl).trans ?_
  cases s
  simp_all

/-- A pass over entries that return: all of them run, oldest first, and the loop is left with
the queue empty and the mutex released. -/
theorem drain_all (q : List (Tid × Entry)) (w : Holder) :
    ∀ (s : Logger) (fuel : Nat), s.pc = Pc.test → s.queue_ = q → s.queue_mutex_ = some w →
      (∀ x ∈ q, x.2.returns = true) → 3 * q.length + 1 ≤ fuel →
      s.drain fuel =
        { s with queue_ := [], queue_mutex_ := none, pc := Pc.check,
                 sink := s.sink ++ q.flatMap (fun x => x.2.writes),
                 executed := s.executed ++ q } := by
  induction q with
  | nil =>
    intro s fuel hpc hq hm _ hfuel
    obtain ⟨n, rfl⟩ : ∃ n, fuel = n + 1 := ⟨fuel - 1, by omega⟩
    rw [drain_test_nil n s hpc hq]
    simp [hq]
  | cons x r ih =>
    intro s fuel hpc hq hm hret hfuel
    simp only [List.length_cons] at hfuel
    obtain ⟨n, rfl⟩ : ∃ n, fuel = n + 3 := ⟨fuel - 3, by omega⟩
    refine (drain_one n s x r w hpc hq hm (hret x (by simp))).trans ?_
    refine (ih { s with queue_ := r, sink := s.sink ++ x.2.writes,
                        executed := s.executed ++ [x] } n hpc rfl hm
      (fun y hy => hret y (by simp [hy])) (by omega)).trans ?_
    simp [List.flatMap_cons, List.append_assoc]

/-- A pass in which the first entry that does not return throws. -/
theorem drain_until_raise (pre : List (Tid × Entry)) (w : Holder) (x : Tid × Entry)
    (rest : List (Tid × Entry)) (c : Nat) (hx : x.2.raises = some c) :
    ∀ (s : Logger) (fuel : Nat), s.pc = Pc.test → s.queue_ = pre ++ x :: rest →
      s.queue_mutex_ = some w → (∀ y ∈ pre, y.2.returns = true) → 3 * pre.length + 2 ≤ fuel →
      s.drain fuel =
        { s with queue_ := x :: rest, pc := Pc.threw c,
                 sink := s.sink ++ pre.flatMap (fun y => y.2.writes) ++ x.2.writes,
                 executed := s.executed ++ pre } := by
  induction pre with
  | nil =>
    intro s fuel hpc hq hm _ hfuel
    obtain ⟨n, rfl⟩ : ∃ n, fuel = n + 2 := ⟨fuel - 2, by omega⟩
    simp only [List.nil_append] at hq
    refine (drain_test_cons (n + 1) s x rest hpc hq).trans ?_
    refine (drain_call_raises n { s with pc := Pc.call } x rest w c rfl hq hm hx).trans ?_
    cases s
    simp_all
  | cons y r ih =>
    intro s fuel hpc hq hm hret hfuel
    simp only [List.length_cons] at hfuel
    simp only [List.cons_append] at hq
    obtain ⟨n, rfl⟩ : ∃ n, fuel = n + 3 := ⟨fuel - 3, by omega⟩
    refine (drain_one n s y (r ++ x :: rest) w hpc hq hm (hret y (by simp))).trans ?_
    refine (ih { s with queue_ := r ++ x :: rest, sink := s.sink ++ y.2.writes,
                        executed := s.executed ++ [y] } n hpc rfl hm
      (fun z hz => hret z (by simp [hz])) (by omega)).trans ?_
    simp [List.flatMap_cons, List.append_assoc]


/-! ## Invariant of the interleaving model -/

theorem Inv_ctor : Inv Logger.ctor [] := by
  constructor <;> simp [Logger.ctor, holds]

theorem Print_call_held (b : Bool) (s : Logger) (x : Tid × Entry) (r : List (Tid × Entry))
    (w : Holder) (hpc : s.pc = Pc.call) (hq : s.queue_ = x :: r) (hm : s.queue_mutex_ = some w) :
    s.Print b =
      if x.2.returns then
        some { s with sink := s.sink ++ x.2.writes, pc := Pc.pop, executed := s.executed ++ [x] }
      else match x.2.raises with
        | some c => some { s with sink := s.sink ++ x.2.writes, pc := Pc.threw c }
        | none => some { s with sink := s.sink ++ x.2.writes, pc := Pc.stuck } := by
  simp only [Logger.Print, hpc, hq, run_held Tid.worker x.2 s w hm]
  by_cases hr : x.2.returns = true
  · simp [hr]
  · cases hc : x.2.raises <;> simp [hr]

theorem Print_inv (b : Bool) (s s1 : Logger) (log : List (Tid × Entry)) (hI : Inv s log)
    (h : s.Print b = some s1) : Inv s1 log := by
  obtain ⟨hm, hpr, hf, hfp⟩ := hI
  cases hpc : s.pc with
  | lock =>
    simp only [Logger.Print, hpc] at h
    cases hq : s.queue_mutex_ <;> simp only [hq] at h
    · cases h
      constructor <;> simp_all [holds]
    · cases h
  | wait =>
    simp only [Logger.Print, hpc] at h
    cases hq : s.queue_ <;> simp only [hq] at h <;> cases h <;>
      constructor <;> simp_all [holds]
  | blocked =>
    simp only [Logger.Print, hpc] at h
    cases hq : s.queue_mutex_ <;> simp only [hq] at h
    · cases b <;> simp at h <;> cases h <;> constructor <;> simp_all [holds]
    · cases h
  | test =>
    simp only [Logger.Print, hpc] at h
    cases hq : s.queue_ <;> simp only [hq] at h <;> cases h <;>
      constructor <;> simp_all [holds]
  | call =>
    have hw : s.queue_mutex_ = some Holder.print := hm.2 (by simp [hpc, holds])
    cases hq : s.queue_ with
    | nil => simp [Logger.Print, hpc, hq] at h
    | cons x r =>
      rw [Print_call_held b s x r Holder.print hpc hq hw] at h
      by_cases hr : x.2.returns = true
      · simp only [hr, if_true] at h
        cases h
        have hf1 := hf (by simp [hpc])
        rw [hq] at hf1
        refine ⟨?_, ?_, ?_, ?_⟩
        · simpa [holds] using hw
        · intro t a ha; exact hpr t a ha
        · intro hne; exact absurd rfl hne
        · intro _; exact ⟨x, r, s.executed, hq, rfl, hf1.symm⟩
      · cases hc : x.2.raises <;> simp [hr, hc] at h <;> cases h <;>
          constructor <;> simp_all [holds]
  | pop =>
    simp only [Logger.Print, hpc] at h
    cases h
    obtain ⟨x, r, pre, hq, he, hl⟩ := hfp hpc
    constructor <;> simp_all [holds]
  | check =>
    simp only [Logger.Print, hpc] at h
    cases hst : s.stop_loop_ <;> simp [hst] at h <;> cases h <;>
      constructor <;> simp_all [holds]
  | done => simp [Logger.Print, hpc] at h
  | threw c => simp [Logger.Print, hpc] at h
  | stuck => simp [Logger.Print, hpc] at h

theorem not_pop_of_free (s : Logger) (h : s.queue_mutex_ ≠ some Holder.print)
    (hm : s.queue_mutex_ = some Holder.print ↔ holds s.pc = true) : s.pc ≠ Pc.pop := by
  intro hpc
  exact h (hm.2 (by simp [hpc, holds]))

theorem step_inv (ev : Event) (s s1 : Logger) (log : List (Tid × Entry)) (hI : Inv s log)
    (h : step ev s = some s1) : Inv s1 (log ++ pushes [ev]) := by
  cases ev with
  | worker => simpa [pushes] using Print_inv false s s1 log hI h
  | timeout =>
    cases hpc : s.pc <;> simp [step, hpc] at h
    simpa [pushes] using Print_inv true s s1 log hI h
  | lockMsg i =>
    obtain ⟨hm, hpr, hf, hfp⟩ := hI
    simp only [step, Logger.AddMsg_lock] at h
    cases hq : s.queue_mutex_ with
    | some w => simp [hq] at h
    | none =>
      simp only [hq] at h
      cases h
      have hh : ¬ holds s.pc = true := fun hh => by simpa [hq] using hm.2 hh
      refine ⟨?_, ?_, ?_, ?_⟩
      · simpa using hh
      · intro t a ha
        simp only [Option.some.injEq, Holder.addMsg.injEq] at ha
        exact ⟨i, ha.1.symm⟩
      · simpa [pushes] using hf
      · simpa [pushes] using hfp
  | pushMsg i f =>
    obtain ⟨hm, hpr, hf, hfp⟩ := hI
    simp only [step, Logger.AddMsg_push] at h
    split at h
    · rename_i hq
      cases h
      have hh : ¬ holds s.pc = true := fun hh => by simpa [hq] using hm.2 hh
      have hpop : s.pc ≠ Pc.pop := not_pop_of_free s (by simp [hq]) hm
      refine ⟨?_, ?_, ?_, ?_⟩
      · simpa using hh
      · intro t a ha
        simp only [Option.some.injEq, Holder.addMsg.injEq] at ha
        exact ⟨i, ha.1.symm⟩
      · intro _
        show s.executed ++ (s.queue_ ++ [(Tid.producer i, f)]) = log ++ pushes [Event.pushMsg i f]
        rw [← hf hpop, List.append_assoc]
        rfl
      · intro hp; exact absurd hp hpop
    · cases h
  | notifyMsg i =>
    obtain ⟨hm, hpr, hf, hfp⟩ := hI
    simp only [step, Logger.AddMsg_notify] at h
    split at h
    · rename_i hq
      cases h
      have hh : ¬ holds s.pc = true := fun hh => by simpa [hq] using hm.2 hh
      refine ⟨?_, ?_, ?_, ?_⟩
      · simpa using hh
      · intro t a ha
        simp only [Option.some.injEq, Holder.addMsg.injEq] at ha
        exact ⟨i, ha.1.symm⟩
      · simpa [pushes] using hf
      · simpa [pushes] using hfp
    · cases h
  | unlockMsg i =>
    obtain ⟨hm, hpr, hf, hfp⟩ := hI
    simp only [step, Logger.AddMsg_unlock] at h
    split at h
    · rename_i hq
      cases h
      have hh : ¬ holds s.pc = true := fun hh => by simpa [hq] using hm.2 hh
      refine ⟨?_, ?_, ?_, ?_⟩
      · simpa using hh
      · intro t a ha; cases ha
      · simpa [pushes] using hf
      · simpa [pushes] using hfp
    · cases h
  | setLevel level =>
    obtain ⟨hm, hpr, hf, hfp⟩ := hI
    simp only [step, Logger.SetLevel, Logger.instance_] at h
    cases h
    constructor <;> (split <;> simp_all [pushes])
  | setColored b =>
    obtain ⟨hm, hpr, hf, hfp⟩ := hI
    simp only [step, Logger.SetColored] at h
    cases h
    constructor <;> simp_all [pushes]
  | stop =>
    obtain ⟨hm, hpr, hf, hfp⟩ := hI
    simp only [step] at h
    cases h
    constructor <;> simp_all [pushes]
  | join =>
    obtain ⟨hm, hpr, hf, hfp⟩ := hI
    cases hj : s.thread_joinable <;> cases hpc : s.pc <;> simp [step, hj, hpc] at h
    cases h
    constructor <;> simp_all [pushes]

theorem pushes_cons (ev : Event) (tr : List Event) : pushes (ev :: tr) = pushes [ev] ++ pushes tr := by
  cases ev <;> simp [pushes]

theorem run_inv (tr : List Event) :
    ∀ (s s1 : Logger) (log : List (Tid × Entry)), Inv s log → run tr s = some s1 →
      Inv s1 (log ++ pushes tr) := by
  induction tr with
  | nil =>
    intro s s1 log hI h
    simp only [run, Option.some.injEq] at h
    subst h
    simpa [pushes] using hI
  | cons ev tr ih =>
    intro s s1 log hI h
    simp only [run] at h
    cases hs : step ev s with
    | none => simp [hs] at h
    | some s2 =>
      rw [hs] at h
      have := ih s2 s1 _ (step_inv ev s s2 log hI hs) h
      rwa [pushes_cons, ← List.append_assoc]

theorem reachable_inv (tr : List Event) (s : Logger) (h : run tr Logger.ctor = some s) :
    Inv s (pushes tr) := by
  simpa using run_inv tr Logger.ctor s [] Inv_ctor h

/-! ## Stop flag and the worker running alone -/

theorem run_stop (t : Tid) (f : Entry) :
    ∀ s : Logger, (f.run t s).state.stop_loop_ = s.stop_loop_ := by
  induction f with
  | ret => intro s; rfl
  | write v k ih => intro s; simpa [Entry.run] using ih { s with sink := s.sink ++ [v] }
  | addMsg f k _ ih =>
    intro s
    cases hq : s.queue_mutex_ with
    | some w => simp [Entry.run, AddMsg_held t w f s hq, Outcome.state]
    | none => simpa [Entry.run, AddMsg_free t f s hq] using ih { s with queue_ := s.queue_ ++ [(t, f)] }
  | raise c => intro s; rfl

theorem Print_stop (b : Bool) (s s1 : Logger) (h : s.Print b = some s1) :
    s1.stop_loop_ = s.stop_loop_ := by
  cases hpc : s.pc with
  | lock =>
    simp only [Logger.Print, hpc] at h
    cases hq : s.queue_mutex_ <;> simp only [hq] at h <;> cases h
    rfl
  | wait =>
    simp only [Logger.Print, hpc] at h
    cases hq : s.queue_ <;> simp only [hq] at h <;> cases h <;> rfl
  | blocked =>
    simp only [Logger.Print, hpc] at h
    cases hq : s.queue_mutex_ <;> simp only [hq] at h
    · cases b <;> simp at h <;> cases h <;> rfl
    · cases h
  | test =>
    simp only [Logger.Print, hpc] at h
    cases hq : s.queue_ <;> simp only [hq] at h <;> cases h <;> rfl
  | call =>
    cases hq : s.queue_ with
    | nil => simp [Logger.Print, hpc, hq] at h
    | cons x r =>
      have hs := run_stop Tid.worker x.2 s
      simp only [Logger.Print, hpc, hq] at h
      cases hr : x.2.run Tid.worker s <;> simp only [hr] at h hs <;> cases h <;>
        simpa [Outcome.state] using hs
  | pop =>
    simp only [Logger.Print, hpc] at h
    cases h; rfl
  | check =>
    simp only [Logger.Print, hpc] at h
    cases hst : s.stop_loop_ <;> simp [hst] at h <;> cases h <;> simp [hst]
  | done => simp [Logger.Print, hpc] at h
  | threw c => simp [Logger.Print, hpc] at h
  | stuck => simp [Logger.Print, hpc] at h

theorem runWorker_stop (n : Nat) : ∀ s : Logger, (s.runWorker n).stop_loop_ = s.stop_loop_ := by
  induction n with
  | zero => intro s; rfl
  | succ n ih =>
    intro s
    cases h : s.Print true with
    | none => simp [Logger.runWorker, h]
    | some s1 => simpa [Logger.runWorker, h, ih s1] using Print_stop true s s1 h

theorem runWorker_halted (n : Nat) (s : Logger) (h : s.Print true = none) :
    s.runWorker n = s := by
  cases n <;> simp [Logger.runWorker, h]

theorem drain_add (k : Nat) : ∀ (m : Nat) (s : Logger), s.drain (k + m) = (s.drain k).drain m := by
  induction k with
  | zero => intro m s; simp [Logger.drain]
  | succ k ih =>
    intro m s
    have e : k + 1 + m = (k + m) + 1 := by omega
    rw [e]
    by_cases hl : s.pc = Pc.test ∨ s.pc = Pc.call ∨ s.pc = Pc.pop
    · cases h : s.Print false with
      | none =>
        have h1 : ∀ n, s.drain n = s := by
          intro n
          cases n with
          | zero => rfl
          | succ n => rcases hl with hl | hl | hl <;> simp [Logger.drain, hl, h]
        rw [h1, h1, h1]
      | some s1 =>
        have h1 : ∀ n, s.drain (n + 1) = s1.drain n := by
          intro n
          rcases hl with hl | hl | hl <;> simp [Logger.drain, hl, h]
        rw [h1, h1, ih]
    · have h1 := drain_left (k + m + 1) s (fun h => hl (Or.inl h))
        (fun h => hl (Or.inr (Or.inl h))) (fun h => hl (Or.inr (Or.inr h)))
      have h2 := drain_left (k + 1) s (fun h => hl (Or.inl h))
        (fun h => hl (Or.inr (Or.inl h))) (fun h => hl (Or.inr (Or.inr h)))
      have h3 := drain_left m s (fun h => hl (Or.inl h))
        (fun h => hl (Or.inr (Or.inl h))) (fun h => hl (Or.inr (Or.inr h)))
      rw [h1, h2, h3]


theorem join_some (fuel : Nat) (s s1 : Logger) (h : s.join fuel = some s1) :
    s1 = { s.runWorker fuel with thread_joinable := false } := by
  unfold Logger.join at h
  split at h
  · exact (Option.some.inj h).symm
  · cases h

/-! ## Properties of the specification -/

/-- C1 (fails on the code): one producer pushes K = 1 entry and then calls `Shutdown()`.  When
the push and the store to `stop_loop_` fall between the end of a pass (mutex released) and the
worker's read of `stop_loop_`, the worker leaves `Print` and is joined with no entry executed
and the pushed entry still in the queue. -/
theorem shutdown_leaves_late_entry :
    (run lateEnqueue Logger.ctor).map
        (fun s => (s.pc, s.thread_joinable, s.stop_loop_, s.executed, s.sink, s.queue_)) =
      some (Pc.done, false, true, [], [], [(Tid.producer 0, put 1)]) ∧
    pushes lateEnqueue = [(Tid.producer 0, put 1)] :=
  ⟨rfl, rfl⟩

/-- C2: entries that return, pushed in order by one thread onto an empty queue, are all run by
one pass of the inner loop of `Print`, in the order of the pushes and once each, and the pass
ends with the queue empty; the output is the concatenation of their writes. -/
theorem drain_fifo (s : Logger) (i : Nat) (es : List Entry) (hq : s.queue_ = [])
    (hm : s.queue_mutex_ = none) (hret : ∀ e ∈ es, e.returns = true) :
    (s.AddMsgs (Tid.producer i) es).map (fun s1 => s1.queue_) =
      some (es.map (fun e => (Tid.producer i, e))) ∧
    ∀ fuel, 3 * es.length + 1 ≤ fuel →
      (s.AddMsgs (Tid.producer i) es).map
          (fun s1 => ((s1.atLoop.drain fuel).pc, (s1.atLoop.drain fuel).queue_,
                      (s1.atLoop.drain fuel).executed, (s1.atLoop.drain fuel).sink)) =
        some (Pc.check, [], s.executed ++ es.map (fun e => (Tid.producer i, e)),
              s.sink ++ es.flatMap Entry.writes) := by
  rw [AddMsgs_free _ es s hm]
  refine ⟨by simp [hq], ?_⟩
  intro fuel hfuel
  have hd := drain_all (es.map (fun e => (Tid.producer i, e))) Holder.print
    (Logger.atLoop { s with queue_ := s.queue_ ++ es.map (fun e => (Tid.producer i, e)) })
    fuel rfl (by simp [Logger.atLoop, hq]) rfl
    (by
      intro x hx
      obtain ⟨e, he, rfl⟩ := List.mem_map.1 hx
      exact hret e he)
    (by simpa using hfuel)
  simp only [Option.map_some']
  rw [hd]
  simp [Logger.atLoop, List.flatMap_map]

/-- Witness of C2: five entries appending 1..5 give the output `[1, 2, 3, 4, 5]`. -/
theorem drain_fifo_witness :
    (Logger.ctor.AddMsgs (Tid.producer 0) [put 1, put 2, put 3, put 4, put 5]).map
        (fun s1 => ((s1.atLoop.drain 16).pc, (s1.atLoop.drain 16).queue_,
                    (s1.atLoop.drain 16).executed, (s1.atLoop.drain 16).sink)) =
      some (Pc.check, [],
            [(Tid.producer 0, put 1), (Tid.producer 0, put 2), (Tid.producer 0, put 3),
             (Tid.producer 0, put 4), (Tid.producer 0, put 5)],
            [1, 2, 3, 4, 5]) :=
  (drain_fifo Logger.ctor 0 [put 1, put 2, put 3, put 4, put 5] rfl rfl (by decide)).2 16
    (by decide)

/-- C3: in every schedule of the worker and any number of application threads, the entries of
one thread that have been executed are an initial part of the sequence that thread pushed, in
its order; when the queue is empty the executed sequence is the sequence of all pushes, so
every pushed entry has been executed once. -/
theorem per_producer_fifo (tr : List Event) (s : Logger) (h : run tr Logger.ctor = some s)
    (t : Tid) :
    byThread t s.executed <+: byThread t (pushes tr) ∧
    (s.queue_ = [] →
      s.executed = pushes tr ∧ byThread t s.executed = byThread t (pushes tr) ∧
      s.executed.length = (pushes tr).length) := by
  have hI := reachable_inv tr s h
  have hrest : ∃ rest, pushes tr = s.executed ++ rest ∧ (s.queue_ = [] → rest = []) := by
    by_cases hpc : s.pc = Pc.pop
    · obtain ⟨x, r, pre, hq, he, hl⟩ := hI.fifoPop hpc
      exact ⟨r, by simp [hl, he], by simp [hq]⟩
    · exact ⟨s.queue_, (hI.fifo hpc).symm, fun hq => hq⟩
  obtain ⟨rest, hl, hnil⟩ := hrest
  refine ⟨⟨byThread t rest, by simp [byThread, hl]⟩, ?_⟩
  intro hq
  have hr := hnil hq
  subst hr
  simp [hl]

/-- Witness of C3: two threads push three entries, the worker makes a pass. -/
theorem per_producer_fifo_witness :
    byThread (Tid.producer 0) twoProducersEnd.executed <+:
      byThread (Tid.producer 0) (pushes twoProducers) ∧
    (twoProducersEnd.queue_ = [] →
      twoProducersEnd.executed = pushes twoProducers ∧
      byThread (Tid.producer 0) twoProducersEnd.executed =
        byThread (Tid.producer 0) (pushes twoProducers) ∧
      twoProducersEnd.executed.length = (pushes twoProducers).length) :=
  per_producer_fifo twoProducers twoProducersEnd (by decide) (Tid.producer 0)

/-- C4: when a call of `Shutdown()` has returned, a second call returns at once, whatever the
worker could still do (no join is attempted, the worker is not joinable), and leaves the whole
state as it was: stop flag set, same queue, same flags, same executed entries and output. -/
theorem Shutdown_idempotent (fuel fuel2 : Nat) (s s1 : Logger)
    (h : s.Shutdown fuel = some s1) :
    s1.Shutdown fuel2 = some s1 ∧ s1.thread_joinable = false ∧ s1.stop_loop_ = true := by
  have key : s1.thread_joinable = false ∧ s1.stop_loop_ = true := by
    unfold Logger.Shutdown at h
    by_cases hj : s.thread_joinable = true
    · simp only [hj, if_true] at h
      have hst := join_some fuel _ s1 h
      subst hst
      refine ⟨rfl, ?_⟩
      show (Logger.runWorker fuel _).stop_loop_ = true
      rw [runWorker_stop]
    · simp only [hj] at h
      cases h
      exact ⟨rfl, rfl⟩
  refine ⟨?_, key.1, key.2⟩
  obtain ⟨h1, h2⟩ := key
  unfold Logger.Shutdown
  cases s1
  simp_all

/-- Witness of C4: `Shutdown` on a logger with two pending entries, then again. -/
theorem Shutdown_idempotent_witness :
    twoPending.Shutdown 9 = some twoPendingEnd ∧
    twoPendingEnd.Shutdown 0 = some twoPendingEnd ∧
    twoPendingEnd.thread_joinable = false ∧ twoPendingEnd.stop_loop_ = true :=
  ⟨by decide, Shutdown_idempotent 9 0 twoPending twoPendingEnd (by decide)⟩

/-- C5: `GetLevel()` right after `SetLevel(L)` returns the ordinal of `L`, and `GetColored()`
right after `SetColored(b)` returns `b`. -/
theorem get_after_set (s : Logger) (L : LogLevel) (b : Bool) :
    ((s.SetLevel L).GetLevel).1 = L.toInt ∧ ((s.SetColored b).GetColored).1 = b := by
  constructor
  · simp only [Logger.GetLevel, Logger.SetLevel, Logger.instance_]
    split <;> rfl
  · simp only [Logger.GetColored, Logger.SetColored, Logger.instance_]
    split <;> rfl

/-- C6: the constructed logger has level `LOG_LEVEL_INFO` (ordinal 3 on the scale 0..5 from
`LOG_LEVEL_CRITICAL` to `LOG_LEVEL_TRACE`), colour on, the stop flag clear, an empty queue and a
joinable worker at the top of `Print`; `GetLevel()` returns 3 and `GetColored()` returns true. -/
theorem ctor_defaults :
    Logger.ctor.level_ = LogLevel.LOG_LEVEL_INFO.toInt ∧
    [LogLevel.LOG_LEVEL_CRITICAL, LogLevel.LOG_LEVEL_ERROR, LogLevel.LOG_LEVEL_WARNING,
      LogLevel.LOG_LEVEL_INFO, LogLevel.LOG_LEVEL_DEBUG, LogLevel.LOG_LEVEL_TRACE].map
        LogLevel.toInt = [0, 1, 2, 3, 4, 5] ∧
    Logger.ctor.is_colored_ = true ∧ Logger.ctor.stop_loop_ = false ∧
    Logger.ctor.queue_ = [] ∧ Logger.ctor.thread_joinable = true ∧ Logger.ctor.pc = Pc.lock ∧
    Logger.ctor.GetLevel.1 = 3 ∧ Logger.ctor.GetColored.1 = true := by
  decide


/-- C7 (fails on the code): thread 0 pushes `put 1`, the worker makes a pass that runs it and
releases the mutex; thread 0 then pushes `put 2` and calls `Shutdown`; the worker reads the flag
and leaves the loop, and the join returns.  The last pass began with the flag clear, no pass
followed the store, and `put 2`, pushed before `Shutdown`, is still in the queue. -/
theorem exit_after_unflagged_pass :
    (run stopAfterPass Logger.ctor).map
        (fun s => (s.pc, s.thread_joinable, s.stop_loop_, s.began, s.executed, s.queue_)) =
      some (Pc.done, false, true, some false, [(Tid.producer 0, put 1)],
            [(Tid.producer 0, put 2)]) :=
  rfl

/-- C8 (as stated, fails): after one push the worker reaches the call of the entry while it
owns `queue_mutex_`, and in that state another thread that enters `AddMsg` cannot take the
mutex. -/
theorem worker_calls_under_mutex :
    (run workerInCall Logger.ctor).map (fun s => (s.pc, s.queue_mutex_)) =
      some (Pc.call, some Holder.print) ∧
    run (workerInCall ++ [Event.lockMsg 1]) Logger.ctor = none := by
  decide

/-- C8 (amended): in every reachable state in which the worker tests the predicate of the wait
or the loop condition, runs an entry or pops, the worker owns `queue_mutex_` and no application
thread can take it; and whenever an application thread cannot take the mutex, either the worker
owns it and stands between its lock (line 94) and the end of the do-body, or another
application thread is inside `AddMsg`. -/
theorem producer_waits_for_pass (tr : List Event) (s : Logger)
    (h : run tr Logger.ctor = some s) :
    (s.pc = Pc.wait ∨ s.pc = Pc.test ∨ s.pc = Pc.call ∨ s.pc = Pc.pop →
      s.queue_mutex_ = some Holder.print ∧ ∀ i, step (Event.lockMsg i) s = none) ∧
    (∀ i, step (Event.lockMsg i) s = none →
      (s.queue_mutex_ = some Holder.print ∧ holds s.pc = true) ∨
      ∃ j a, s.queue_mutex_ = some (Holder.addMsg (Tid.producer j) a)) := by
  have hI := reachable_inv tr s h
  constructor
  · intro hpc
    have hw : s.queue_mutex_ = some Holder.print := by
      rcases hpc with hpc | hpc | hpc | hpc <;> exact hI.mutex.2 (by simp [hpc, holds])
    exact ⟨hw, fun i => by simp [step, Logger.AddMsg_lock, hw]⟩
  · intro i hi
    cases hq : s.queue_mutex_ with
    | none => simp [step, Logger.AddMsg_lock, hq] at hi
    | some w =>
      cases w with
      | print => exact Or.inl ⟨rfl, hI.mutex.1 hq⟩
      | addMsg t a =>
        obtain ⟨j, rfl⟩ := hI.producers t a hq
        exact Or.inr ⟨j, a, rfl⟩

/-- Witness of C8 (amended): the worker in the call of the first entry. -/
theorem producer_waits_for_pass_witness :
    workerInCallEnd.pc = Pc.call ∧ workerInCallEnd.queue_mutex_ = some Holder.print ∧
    step (Event.lockMsg 1) workerInCallEnd = none :=
  ⟨rfl,
    ((producer_waits_for_pass workerInCall workerInCallEnd (by decide)).1
      (Or.inr (Or.inr (Or.inl rfl)))).1,
    ((producer_waits_for_pass workerInCall workerInCallEnd (by decide)).1
      (Or.inr (Or.inr (Or.inl rfl)))).2 1⟩

/-- C9 (as stated, fails): the queue holds one entry that calls `AddMsg(put 7)`.  The pass that
runs it stops inside the call, at the lock of a mutex that the worker itself holds: `put 7` is
neither pushed nor run and no amount of steps completes the pass. -/
theorem reentrant_entry_blocks_pass :
    run reentrant Logger.ctor = some reentrantEnd ∧
    ((reentrantEnd.drain 2).pc, (reentrantEnd.drain 2).queue_,
      (reentrantEnd.drain 2).executed, (reentrantEnd.drain 2).sink) =
        (Pc.stuck, [(Tid.producer 0, relog)], [], []) ∧
    ¬ ∃ fuel, (reentrantEnd.drain fuel).pc = Pc.check := by
  refine ⟨by decide, by decide, ?_⟩
  rintro ⟨fuel, hf⟩
  match fuel, hf with
  | 0, hf => exact absurd hf (by decide)
  | 1, hf => exact absurd hf (by decide)
  | n + 2, hf =>
    have e : n + 2 = 2 + n := by omega
    rw [e, drain_add 2 n reentrantEnd,
      drain_left n (reentrantEnd.drain 2) (by decide) (by decide) (by decide)] at hf
    exact absurd hf (by decide)

/-- C9 (amended): in every reachable state in which the worker stands in the inner loop (loop
condition, call of an entry, pop) it owns `queue_mutex_`, no application thread can take the
mutex and no `AddMsg` of an application thread returns; and from every reachable state at the
head of the inner loop whose queued entries return, the pass runs exactly the entries queued at
its start, oldest first, and ends with the queue empty. -/
theorem pass_runs_queued_entries (tr : List Event) (s : Logger)
    (h : run tr Logger.ctor = some s) :
    (s.pc = Pc.test ∨ s.pc = Pc.call ∨ s.pc = Pc.pop →
      s.queue_mutex_ = some Holder.print ∧
      ∀ i f, step (Event.lockMsg i) s = none ∧ s.AddMsg (Tid.producer i) f = none) ∧
    (s.pc = Pc.test → (∀ x ∈ s.queue_, x.2.returns = true) →
      ∀ fuel, 3 * s.queue_.length + 1 ≤ fuel →
        (s.drain fuel).pc = Pc.check ∧ (s.drain fuel).queue_ = [] ∧
        (s.drain fuel).executed = s.executed ++ s.queue_ ∧
        (s.drain fuel).sink = s.sink ++ s.queue_.flatMap (fun x => x.2.writes)) := by
  have hI := reachable_inv tr s h
  constructor
  · intro hpc
    have hw : s.queue_mutex_ = some Holder.print := by
      rcases hpc with hpc | hpc | hpc <;> exact hI.mutex.2 (by simp [hpc, holds])
    exact ⟨hw, fun i f =>
      ⟨by simp [step, Logger.AddMsg_lock, hw], AddMsg_held _ _ f s hw⟩⟩
  · intro hpc hret fuel hfuel
    have hw : s.queue_mutex_ = some Holder.print := hI.mutex.2 (by simp [hpc, holds])
    rw [drain_all s.queue_ Holder.print s fuel hpc rfl hw hret hfuel]
    exact ⟨rfl, rfl, rfl, rfl⟩

/-- Witness of C9 (amended): two entries of two threads at the head of the loop. -/
theorem pass_runs_queued_entries_witness :
    passStartEnd.queue_mutex_ = some Holder.print ∧
    step (Event.lockMsg 2) passStartEnd = none ∧
    passStartEnd.AddMsg (Tid.producer 2) (put 3) = none ∧
    (passStartEnd.drain 7).pc = Pc.check ∧ (passStartEnd.drain 7).queue_ = [] ∧
    (passStartEnd.drain 7).executed = [(Tid.producer 0, put 1), (Tid.producer 1, put 2)] ∧
    (passStartEnd.drain 7).sink = [1, 2] :=
  ⟨((pass_runs_queued_entries passStart passStartEnd (by decide)).1 (Or.inl rfl)).1,
    (((pass_runs_queued_entries passStart passStartEnd (by decide)).1 (Or.inl rfl)).2
      2 (put 3)).1,
    (((pass_runs_queued_entries passStart passStartEnd (by decide)).1 (Or.inl rfl)).2
      2 (put 3)).2,
    (pass_runs_queued_entries passStart passStartEnd (by decide)).2 rfl (by decide) 7
      (by decide)⟩

/-- C10: the worker holds the mutex at the head of the inner loop and the queue is
`pre ++ x :: rest`, where the entries of `pre` return and `x` throws `c`.  The pass runs the
entries of `pre` in order, then the exception of `x` leaves `Print`: the worker performs no
further statement, `x` and `rest` stay in the queue and no entry of `rest` is ever run. -/
theorem drain_stops_at_failure (s : Logger) (pre rest : List (Tid × Entry)) (x : Tid × Entry)
    (c : Nat) (hpc : s.pc = Pc.test) (hm : s.queue_mutex_ = some Holder.print)
    (hq : s.queue_ = pre ++ x :: rest) (hret : ∀ y ∈ pre, y.2.returns = true)
    (hx : x.2.raises = some c) (fuel : Nat) (hfuel : 3 * pre.length + 2 ≤ fuel) :
    (s.drain fuel).pc = Pc.threw c ∧
    (s.drain fuel).executed = s.executed ++ pre ∧
    (s.drain fuel).queue_ = x :: rest ∧
    (s.drain fuel).sink = s.sink ++ pre.flatMap (fun y => y.2.writes) ++ x.2.writes ∧
    (∀ b, (s.drain fuel).Print b = none) ∧
    ∀ n, ((s.drain fuel).runWorker n).executed = s.executed ++ pre := by
  have hd := drain_until_raise pre Holder.print x rest c hx s fuel hpc hq hm hret hfuel
  have hP : ∀ b, (s.drain fuel).Print b = none := by
    intro b
    rw [hd]
    simp [Logger.Print]
  refine ⟨by rw [hd], by rw [hd], by rw [hd], by rw [hd], hP, ?_⟩
  intro n
  rw [runWorker_halted n _ (hP true), hd]

/-- Witness of C10: the second of three entries writes 2 and throws 9. -/
theorem drain_stops_at_failure_witness :
    (failingQueue.drain 5).pc = Pc.threw 9 ∧
    (failingQueue.drain 5).executed = [(Tid.producer 0, put 1)] ∧
    (failingQueue.drain 5).queue_ =
      [(Tid.producer 0, Entry.write 2 (Entry.raise 9)), (Tid.producer 1, put 3)] ∧
    (failingQueue.drain 5).sink = [1, 2] :=
  have h := drain_stops_at_failure failingQueue [(Tid.producer 0, put 1)]
    [(Tid.producer 1, put 3)] (Tid.producer 0, Entry.write 2 (Entry.raise 9)) 9 rfl rfl rfl
    (by decide) rfl 5 (by decide)
  ⟨h.1, h.2.1, h.2.2.1, h.2.2.2.1⟩


end yeti
